import Mathlib

/-!
Verification of pkg/bench/stat.go from the warp benchmark tool.

The file shallowly embeds the two worker phases of the Stat benchmark:

* `Stat.Prepare` (stat.go lines 46-148): the upload worker pool, modelled by
  `prepareVersionStep` / `runVersions` / `runSlot` / `runSlots` / `prepareRun`.
  Worker interleaving is modelled by running workers in sequence: every
  mutation of shared state in the source is guarded by the single mutex `mu`
  (or is a channel send), so a concurrent execution is some sequential order
  of the same atomic state updates, and the per-worker inputs (object source
  output, upload outcomes, durations) are arbitrary script parameters.
* `Stat.Start` (stat.go lines 152-219): the measurement loop body, modelled by
  `startIteration`, with the per-iteration inputs (cancellation poll result,
  rate-limiter result, rng draw, network call outcome, durations) as script
  parameters.

Wall-clock time is a natural-number counter; each network call advances it by
a script-chosen duration, so the two time.Now() reads around a call are
`clock` and `clock + d`. Go int64 sizes are modelled as Int. Client-pool
checkout and release (g.Client() and its cldone) are modelled by counters so
that handle-leak properties are statable.

`splitObjs` is referenced by Prepare but its definition is outside the given
source file; it is modelled from the spec (see its doc comment).
-/

/-- Operation record (bench.Operation as used by stat.go): one measured call. -/
structure Operation where
  OpType : String
  Thread : Nat
  Size : Int
  File : String
  ObjPerOp : Nat
  Endpoint : String
  Start : Nat
  End : Nat
  Err : String
  deriving DecidableEq

/-- Inventory entry (generator.Object as used by stat.go): name, size,
content type, version id, and the transient payload handle (Reader), which is
set to none before the entry is appended to the shared inventory. -/
structure Obj where
  Name : String
  Size : Int
  ContentType : String
  VersionID : String
  Reader : Option Unit
  deriving DecidableEq

/-- Result of a successful client.PutObject call: minio.UploadInfo fields
used by stat.go (VersionID and Size). -/
structure PutRes where
  VersionID : String
  Size : Int
  deriving DecidableEq

/-- Outcome of a client.PutObject call: the (res, err) pair of the source,
where a Go nil error means success. -/
inductive PutOutcome where
  | err (msg : String)
  | ok (res : PutRes)
  deriving DecidableEq

/-- Result of a successful client.StatObject call: minio.ObjectInfo fields
used by stat.go (Size). -/
structure StatRes where
  Size : Int
  deriving DecidableEq

/-- Outcome of a client.StatObject call. -/
inductive StatOutcome where
  | err (msg : String)
  | ok (res : StatRes)
  deriving DecidableEq

/-- Go context, reduced to the one observable stat.go reads: whether it has
been cancelled. -/
structure Context where
  cancelled : Bool
  deriving DecidableEq

/-- context.Background(): the non-terminating context `nonTerm` of Stat.Start
(stat.go line 160). It is never cancelled. -/
def nonTerm : Context := { cancelled := false }

/-- Modelled from the spec: `splitObjs` is called by Stat.Prepare (stat.go
line 71) but defined outside the given source file. The spec says it
partitions C upload iterations as evenly as possible across K workers, with
the remainder distributed, not concentrated in one worker. Each group is
represented by its size: the first C mod K workers receive one extra
iteration on top of the common floor C / K. -/
def splitObjs (objects concurrency : Nat) : List Nat :=
  (List.range concurrency).map fun i =>
    objects / concurrency + if i < objects % concurrency then 1 else 0

/-- Bounded random index: rand.Intn(n) yields a value in [0, n) when n > 0
and panics (none) when n = 0, given the rng draw r. -/
def intn (n r : Nat) : Option Nat :=
  if n = 0 then none else some (r % n)

/-- Object selection of the measurement loop (stat.go line 182):
g.objects[rng.Intn(len(g.objects))]. None models the panic on an empty
inventory. -/
def selectObject (objects : List Obj) (r : Nat) : Option Obj :=
  (intn objects.length r).bind fun i => objects[i]?

/-- Script for one iteration of the Stat.Start worker loop: the results of
the cancellation poll and rate-limiter consult at the top of the loop, a
cancellation of the run context that arrives after the poll (which the body
never reads), the rng draw, the behaviour of client.StatObject as a function
of the context and the opts.VersionID it is given, and the wall-clock
duration of the call. -/
structure StartIterScript where
  ctxDone : Bool
  rpsStop : Bool
  cancelAfterPoll : Bool
  r : Nat
  statCall : Context → String → StatOutcome
  d : Nat

/-- Result of one iteration of the Stat.Start worker loop: the Operation
record sent to the collector (none when the worker exited at the top of the
loop), whether the loop continues to another iteration, and the number of
client checkouts (g.Client()) and releases (cldone()) the iteration
performed. -/
structure StartIterOut where
  op : Option Operation
  more : Bool
  checkouts : Nat
  releases : Nat
  deriving DecidableEq

/-- One iteration of the Stat.Start worker loop (stat.go lines 171-214).
none models the panic of rand.Intn(0) on an empty inventory. -/
def startIteration (thread versions : Nat) (ep : String) (t : Nat)
    (objects : List Obj) (sc : StartIterScript) : Option StartIterOut :=
  if sc.ctxDone then some { op := none, more := false, checkouts := 0, releases := 0 }
  else if sc.rpsStop then some { op := none, more := false, checkouts := 0, releases := 0 }
  else
    match selectObject objects sc.r with
    | none => none
    | some obj =>
      let op : Operation :=
        { OpType := "STAT", Thread := thread, Size := 0, File := obj.Name
          ObjPerOp := 1, Endpoint := ep, Start := t, End := t, Err := "" }
      let op := { op with Start := t }
      let vid := if versions > 1 then obj.VersionID else ""
      match sc.statCall nonTerm vid with
      | .err e =>
        let op := { op with Err := e, End := t + sc.d }
        some { op := some op, more := true, checkouts := 1, releases := 1 }
      | .ok objI =>
        let op := { op with End := t + sc.d }
        let op :=
          if objI.Size ≠ obj.Size ∧ op.Err = "" then
            { op with Err := "unexpected file size. want:" ++ toString obj.Size
                ++ ", got:" ++ toString objI.Size }
          else op
        some { op := some op, more := true, checkouts := 1, releases := 1 }

/-- Shared state touched by the Prepare workers of Stat.Prepare: the
mutex-guarded first-error slot groupErr, the log of errors passed to
g.Error (in mutex-acquisition order), the shared inventory g.objects, the
Operation records sent to the collector channel rcv, counters of client
checkouts (g.Client()) and releases (cldone()), the number of PutObject
calls issued, and the wall clock. -/
structure PrepState where
  groupErr : Option String
  logged : List String
  objects : List Obj
  emitted : List Operation
  checkouts : Nat
  releases : Nat
  putAttempts : Nat
  clock : Nat
  deriving DecidableEq

/-- Initial Prepare state, before any worker runs. -/
def initPrep : PrepState :=
  { groupErr := none, logged := [], objects := [], emitted := []
    checkouts := 0, releases := 0, putAttempts := 0, clock := 0 }

/-- Error capture of Stat.Prepare (stat.go lines 116-121 and 127-132): the
error is logged via g.Error and stored in groupErr under the mutex only when
no error has been captured yet. -/
def capture (s : PrepState) (msg : String) : PrepState :=
  { s with
    logged := s.logged ++ [msg]
    groupErr := match s.groupErr with | none => some msg | some m => some m }

/-- Script for one version upload inside a Prepare slot: the fresh object
descriptor from src.Object(), the outcome of client.PutObject, and the
wall-clock duration of the call. -/
structure VersionScript where
  input : Obj
  outcome : PutOutcome
  d : Nat
  deriving DecidableEq

/-- One version upload of Stat.Prepare (stat.go lines 96-142, body of the
version loop): checkout a client, build the PUT Operation, run PutObject,
and either capture the error and stop the worker (returning without calling
cldone), or release the client, append the descriptor to the inventory and
emit the Operation. The Bool is false when the worker returns. -/
def prepareVersionStep (i : Nat) (ep name : String) (v : VersionScript)
    (s : PrepState) : PrepState × Bool :=
  let s := { s with checkouts := s.checkouts + 1 }
  let op : Operation :=
    { OpType := "PUT", Thread := i, Size := v.input.Size, File := name
      ObjPerOp := 1, Endpoint := ep, Start := s.clock, End := s.clock + v.d
      Err := "" }
  let s := { s with putAttempts := s.putAttempts + 1, clock := s.clock + v.d }
  match v.outcome with
  | .err e => (capture s ("upload error: " ++ e), false)
  | .ok res =>
    if res.Size ≠ v.input.Size then
      (capture s ("short upload. want: " ++ toString v.input.Size
        ++ ", got " ++ toString res.Size), false)
    else
      let s := { s with releases := s.releases + 1 }
      let entry : Obj :=
        { Name := name, Size := v.input.Size, ContentType := v.input.ContentType
          VersionID := res.VersionID, Reader := none }
      let s := { s with objects := s.objects ++ [entry] }
      ({ s with emitted := s.emitted ++ [op] }, true)

/-- Version loop of one Prepare slot (stat.go lines 96-142): runs the
version uploads in order, stopping at the first failure. -/
def runVersions (i : Nat) (ep name : String) (vs : List VersionScript)
    (s : PrepState) : PrepState × Bool :=
  match vs with
  | [] => (s, true)
  | v :: rest =>
    match prepareVersionStep i ep name v s with
    | (s1, true) => runVersions i ep name rest s1
    | (s1, false) => (s1, false)

/-- Script for one assigned iteration (slot) of a Prepare worker: the
cancellation poll result, the rate-limiter result, the object name drawn
from src.Object(), and the per-version scripts. -/
structure SlotScript where
  cancelled : Bool
  rps : Bool
  name : String
  versions : List VersionScript
  deriving DecidableEq

/-- One assigned iteration of a Prepare worker (stat.go lines 82-142): poll
for cancellation, consult the rate limiter, then run the version loop. The
Bool is false when the worker returns instead of taking another slot. -/
def runSlot (i : Nat) (ep : String) (slot : SlotScript) (s : PrepState) :
    PrepState × Bool :=
  if slot.cancelled then (s, false)
  else if slot.rps then (s, false)
  else runVersions i ep slot.name slot.versions s

/-- Iteration loop of one Prepare worker (stat.go lines 82-143): processes
its assigned slots in order; a false flag from a slot exits the worker. -/
def runSlots (i : Nat) (ep : String) (slots : List SlotScript)
    (s : PrepState) : PrepState :=
  match slots with
  | [] => s
  | slot :: rest =>
    match runSlot i ep slot s with
    | (s1, true) => runSlots i ep rest s1
    | (s1, false) => s1

/-- Worker pool of Stat.Prepare (stat.go lines 76-146): worker i runs the
slots of scripts[i]; the sequential fold models one interleaving of the
mutex-guarded atomic updates. Prepare returns the groupErr field of the
resulting state after wg.Wait(). -/
def prepareRun (ep : String) (scripts : List (List SlotScript)) : PrepState :=
  scripts.enum.foldl (fun s iw => runSlots iw.1 ep iw.2 s) initPrep

/-! Helper lemmas. -/

/-- Appending to a nonempty string stays nonempty. -/
lemma append_ne_empty_left (a b : String) (h : a ≠ "") : a ++ b ≠ "" := by
  intro hab
  apply h
  have hl := congrArg String.length hab
  rw [String.length_append] at hl
  have h0 : ("" : String).length = 0 := rfl
  have ha : a.length = 0 := by omega
  cases a with
  | mk data =>
    cases data with
    | nil => rfl
    | cons c cs => simp [String.length, List.length] at ha

/-- Selection succeeds exactly on a nonempty inventory. -/
lemma selectObject_isSome (objects : List Obj) (r : Nat) :
    (selectObject objects r).isSome = true ↔ objects ≠ [] := by
  unfold selectObject intn
  rcases eq_or_ne objects [] with h | h
  · subst h; simp
  · have hlen : objects.length ≠ 0 := by
      simpa [List.length_eq_zero] using h
    have hlt : r % objects.length < objects.length :=
      Nat.mod_lt _ (Nat.pos_of_ne_zero hlen)
    simp [hlen, h, List.getElem?_eq_getElem hlt]

/-- Selection yields the entry at index r mod length on a nonempty inventory. -/
lemma selectObject_of_ne_nil (objects : List Obj) (r : Nat) (h : objects ≠ []) :
    ∃ obj, selectObject objects r = some obj := by
  have := (selectObject_isSome objects r).mpr h
  exact Option.isSome_iff_exists.mp this

/-- C10: the measurement loop selects the inventory entry at
rng.Intn(len(g.objects)); the selection is well defined (no panic from
rand.Intn on a zero bound) exactly when the inventory is nonempty, so an
iteration of the Stat.Start worker loop that passes the cancellation poll
and the rate limiter is well defined exactly when Prepare left at least one
object in the inventory. -/
theorem start_selection_inbounds_iff (objects : List Obj) (r : Nat)
    (thread versions : Nat) (ep : String) (t : Nat) (sc : StartIterScript)
    (h1 : sc.ctxDone = false) (h2 : sc.rpsStop = false) :
    ((selectObject objects r).isSome = true ↔ objects ≠ []) ∧
    (startIteration thread versions ep t objects sc = none ↔ objects = []) := by
  refine ⟨selectObject_isSome objects r, ?_⟩
  unfold startIteration
  rw [h1, h2]
  simp only [Bool.false_eq_true, if_false]
  cases hsel : selectObject objects sc.r with
  | none =>
    simp only [true_iff]
    by_contra hne
    obtain ⟨obj, hobj⟩ := selectObject_of_ne_nil objects sc.r hne
    rw [hobj] at hsel
    exact Option.noConfusion hsel
  | some obj =>
    have : objects ≠ [] := by
      intro hnil
      subst hnil
      simp [selectObject, intn] at hsel
    cases hcall : sc.statCall nonTerm (if versions > 1 then obj.VersionID else "") with
    | err e => simp [hcall, this]
    | ok objI => simp [hcall, this]

/-- Sum of q plus an indicator of i < r over the first K naturals. -/
lemma sum_const_add_indicator (q : Nat) :
    ∀ (K r : Nat), r ≤ K →
      ((List.range K).map fun i => q + if i < r then 1 else 0).sum = K * q + r := by
  intro K
  induction K with
  | zero =>
    intro r hr
    interval_cases r
    simp
  | succ n ih =>
    intro r hr
    rw [List.range_succ, List.map_append, List.sum_append]
    by_cases hrn : r ≤ n
    · rw [ih r hrn]
      have hnr : ¬ n < r := Nat.not_lt.mpr hrn
      simp only [List.map_cons, List.map_nil, List.sum_cons, List.sum_nil, hnr,
        if_false, add_zero]
      ring
    · have hreq : r = n + 1 := Nat.le_antisymm hr (Nat.not_le.mp hrn)
      subst hreq
      have hmap : ((List.range n).map fun i => q + if i < n + 1 then 1 else 0) =
          (List.range n).map fun i => q + if i < n then 1 else 0 := by
        apply List.map_congr_left
        intro i hi
        have hin : i < n := List.mem_range.mp hi
        simp [hin, Nat.lt_succ_of_lt hin]
      rw [hmap, ih n (le_refl n)]
      simp only [List.map_cons, List.map_nil, List.sum_cons, List.sum_nil,
        Nat.lt_succ_self, if_true, add_zero]
      ring

/-- Sizes produced by splitObjs sum to the requested object count. -/
lemma splitObjs_sum (C K : Nat) (h : 0 < K) : (splitObjs C K).sum = C := by
  unfold splitObjs
  rw [sum_const_add_indicator (C / K) K (C % K) (le_of_lt (Nat.mod_lt C h))]
  exact Nat.div_add_mod C K

/-- C6: splitObjs yields exactly K groups whose sizes sum to C, each of size
at least floor C/K and at most ceil C/K (written (C + K - 1) / K). -/
theorem splitObjs_partition (C K : Nat) (h : 0 < K) :
    (splitObjs C K).length = K ∧ (splitObjs C K).sum = C ∧
      ∀ g ∈ splitObjs C K, C / K ≤ g ∧ g ≤ (C + K - 1) / K := by
  refine ⟨by simp [splitObjs], splitObjs_sum C K h, ?_⟩
  intro g hg
  unfold splitObjs at hg
  rw [List.mem_map] at hg
  obtain ⟨i, hi, rfl⟩ := hg
  refine ⟨Nat.le_add_right _ _, ?_⟩
  by_cases hir : i < C % K
  · simp only [hir, if_true]
    rw [Nat.le_div_iff_mul_le h]
    have hexp : (C / K + 1) * K = K * (C / K) + K := by ring
    rw [hexp]
    have hmod : K * (C / K) + C % K = C := Nat.div_add_mod C K
    set p := K * (C / K) with hp
    set r2 := C % K with hr2
    omega
  · simp only [hir, if_false, add_zero]
    apply Nat.div_le_div_right
    omega

/-- Witness for C6 at C = 10 and K = 3. -/
theorem splitObjs_partition_witness :
    (splitObjs 10 3).length = 3 ∧ (splitObjs 10 3).sum = 10 ∧
      ∀ g ∈ splitObjs 10 3, 10 / 3 ≤ g ∧ g ≤ (10 + 3 - 1) / 3 :=
  splitObjs_partition 10 3 (by decide)

/-- Concrete inventory entry used by witnesses. -/
def objFix : Obj :=
  { Name := "obj-1", Size := 5, ContentType := "bin", VersionID := "", Reader := none }

/-- Concrete measurement iteration script with a successful call. -/
def scFix : StartIterScript :=
  { ctxDone := false, rpsStop := false, cancelAfterPoll := false, r := 0
    statCall := fun _ _ => .ok { Size := 5 }, d := 1 }

/-- Result of an iteration that exits at the top of the loop. -/
def exitOut : StartIterOut :=
  { op := none, more := false, checkouts := 0, releases := 0 }

/-- Case analysis of one Stat.Start iteration: it either exits at the top of
the loop with nothing emitted, or it emits exactly one STAT record with
Size 0 whose timestamps bound the call, releases its client checkout, and
continues the loop. -/
lemma startIteration_shape (thread versions : Nat) (ep : String) (t : Nat)
    (objects : List Obj) (sc : StartIterScript) (out : StartIterOut)
    (h : startIteration thread versions ep t objects sc = some out) :
    out = exitOut ∨
      (out.more = true ∧ out.checkouts = 1 ∧ out.releases = 1 ∧
        ∃ op, out.op = some op ∧ op.OpType = "STAT" ∧ op.Size = 0 ∧
          op.Start = t ∧ op.End = t + sc.d) := by
  unfold startIteration at h
  by_cases hcd : sc.ctxDone
  · rw [if_pos hcd] at h
    exact Or.inl (Option.some.inj h).symm
  rw [if_neg hcd] at h
  by_cases hrps : sc.rpsStop
  · rw [if_pos hrps] at h
    exact Or.inl (Option.some.inj h).symm
  rw [if_neg hrps] at h
  cases hsel : selectObject objects sc.r with
  | none => rw [hsel] at h; exact Option.noConfusion h
  | some obj =>
    rw [hsel] at h
    dsimp only at h
    cases hcall : sc.statCall nonTerm (if versions > 1 then obj.VersionID else "") with
    | err e =>
      rw [hcall] at h
      right
      rw [← Option.some.inj h]
      exact ⟨rfl, rfl, rfl, _, rfl, rfl, rfl, rfl, rfl⟩
    | ok objI =>
      rw [hcall] at h
      right
      rw [← Option.some.inj h]
      refine ⟨rfl, rfl, rfl, ?_⟩
      dsimp only
      split
      · exact ⟨_, rfl, rfl, rfl, rfl, rfl⟩
      · exact ⟨_, rfl, rfl, rfl, rfl, rfl⟩

/-- C3: an iteration of the Stat.Start worker loop that reaches the
StatObject call sends exactly one Operation record to the collector and
continues the loop whether the call succeeds or fails; a call error (Go
errors carry nonempty messages) or a reported size differing from the
expected size leaves a nonempty Err field on the record. Start workers
share no control state, so such a failure terminates no worker. -/
theorem start_iteration_emits_one_record
    (thread versions : Nat) (ep : String) (t : Nat) (objects : List Obj)
    (sc : StartIterScript) (obj : Obj) (vid : String)
    (h1 : sc.ctxDone = false) (h2 : sc.rpsStop = false)
    (hsel : selectObject objects sc.r = some obj)
    (hvid : vid = if versions > 1 then obj.VersionID else "")
    (hne : ∀ e, sc.statCall nonTerm vid = .err e → e ≠ "") :
    ∃ op : Operation,
      startIteration thread versions ep t objects sc =
        some { op := some op, more := true, checkouts := 1, releases := 1 } ∧
      (∀ e, sc.statCall nonTerm vid = .err e → op.Err = e ∧ op.Err ≠ "") ∧
      (∀ res, sc.statCall nonTerm vid = .ok res → res.Size ≠ obj.Size →
        op.Err ≠ "") := by
  subst hvid
  unfold startIteration
  rw [h1, h2]
  simp only [Bool.false_eq_true, if_false]
  rw [hsel]
  dsimp only
  cases hcall : sc.statCall nonTerm (if versions > 1 then obj.VersionID else "") with
  | err e =>
    refine ⟨_, rfl, ?_, ?_⟩
    · intro e2 hc2
      injection hc2 with he
      subst he
      exact ⟨rfl, hne e hcall⟩
    · intro res hres
      exact absurd hres (by simp)
  | ok objI =>
    refine ⟨_, rfl, ?_, ?_⟩
    · intro e2 hc2
      exact absurd hc2 (by simp)
    · intro res hres hneq
      injection hres with hr
      subst hr
      split
      · exact append_ne_empty_left _ _
          (append_ne_empty_left _ _
            (append_ne_empty_left _ _ (by decide)))
      · rename_i hcon
        exact absurd ⟨hneq, by simp⟩ hcon

/-- Witness for C3 on a one-entry inventory and a successful call. -/
theorem start_iteration_emits_one_record_witness :
    ∃ op : Operation,
      startIteration 0 1 "ep" 0 [objFix] scFix =
        some { op := some op, more := true, checkouts := 1, releases := 1 } ∧
      (∀ e, scFix.statCall nonTerm "" = .err e → op.Err = e ∧ op.Err ≠ "") ∧
      (∀ res, scFix.statCall nonTerm "" = .ok res → res.Size ≠ objFix.Size →
        op.Err ≠ "") :=
  start_iteration_emits_one_record 0 1 "ep" 0 [objFix] scFix objFix ""
    rfl rfl rfl rfl (fun e he => by simp [scFix] at he)

/-- C4: the StatObject call of the measurement loop runs against the
never-cancelled background context nonTerm, not the cancellable run
context. The result of an iteration depends on the statCall behaviour only
through its value at nonTerm, and not on a run-context cancellation that
arrives after the top-of-loop poll (the cancelAfterPoll field), so a
cancellation cannot abort an in-flight call or suppress its record;
cancellation observed at the poll makes the worker exit before starting,
emitting nothing. -/
theorem start_call_background_ctx
    (thread versions : Nat) (ep : String) (t : Nat) (objects : List Obj)
    (sc sc' : StartIterScript)
    (h1 : sc'.ctxDone = sc.ctxDone) (h2 : sc'.rpsStop = sc.rpsStop)
    (h3 : sc'.r = sc.r) (h4 : sc'.d = sc.d)
    (h5 : sc'.statCall nonTerm = sc.statCall nonTerm) :
    nonTerm.cancelled = false ∧
    startIteration thread versions ep t objects sc' =
      startIteration thread versions ep t objects sc ∧
    (sc.ctxDone = true →
      startIteration thread versions ep t objects sc =
        some { op := none, more := false, checkouts := 0, releases := 0 }) := by
  obtain ⟨cd, rs, cap, r, f, d⟩ := sc
  obtain ⟨cd', rs', cap', r', f', d'⟩ := sc'
  simp only at h1 h2 h3 h4 h5
  subst h1 h2 h3 h4
  refine ⟨rfl, ?_, ?_⟩
  · unfold startIteration
    dsimp only
    rw [h5]
  · intro hcd
    simp only at hcd
    unfold startIteration
    dsimp only
    rw [hcd]
    simp

/-- Concrete script whose statCall would report an abort on a cancelled
context. -/
def scCancelSensitive : StartIterScript :=
  { ctxDone := false, rpsStop := false, cancelAfterPoll := false, r := 0
    statCall := fun c _ => if c.cancelled then .err "aborted" else .ok { Size := 5 }
    d := 1 }

/-- Concrete script differing from scCancelSensitive in cancelAfterPoll and
in statCall behaviour on cancelled contexts only. -/
def scCancelInsensitive : StartIterScript :=
  { ctxDone := false, rpsStop := false, cancelAfterPoll := true, r := 0
    statCall := fun _ _ => .ok { Size := 5 }, d := 1 }

/-- Witness for C4: the two scripts agree at nonTerm, so the iteration
results coincide. -/
theorem start_call_background_ctx_witness :
    nonTerm.cancelled = false ∧
    startIteration 0 1 "ep" 0 [objFix] scCancelInsensitive =
      startIteration 0 1 "ep" 0 [objFix] scCancelSensitive ∧
    (scCancelSensitive.ctxDone = true →
      startIteration 0 1 "ep" 0 [objFix] scCancelSensitive =
        some { op := none, more := false, checkouts := 0, releases := 0 }) :=
  start_call_background_ctx 0 1 "ep" 0 [objFix]
    scCancelSensitive scCancelInsensitive rfl rfl rfl rfl rfl

/-- Counterexample for C9: stat.go line 187 sets Size to 0 on STAT records,
so the record emitted for an object whose expected size is 5 carries Size 0,
not the expected size, refuting the claim that every emitted record carries
the bytes transferred or expected. -/
theorem stat_record_size_zero_cex :
    ((startIteration 0 1 "ep" 0 [objFix] scFix).map fun out =>
        out.op.map Operation.Size) = some (some 0) ∧
    objFix.Size = 5 ∧
    (some (some (0 : Int)) : Option (Option Int)) ≠ some (some (5 : Int)) :=
  ⟨rfl, rfl, by decide⟩

/-- C9 amended: PUT records emitted during Prepare carry the byte size of
the uploaded object (which on the emitting success path also equals the
bytes the server reports as written), while STAT records emitted during
Start always carry Size 0 regardless of the expected object size. -/
theorem operation_size_fields
    (i : Nat) (ep name : String) (v : VersionScript) (s : PrepState)
    (thread versions : Nat) (ep2 : String) (t : Nat) (objects : List Obj)
    (sc : StartIterScript) :
    (∀ op ∈ (prepareVersionStep i ep name v s).1.emitted,
        op ∈ s.emitted ∨ op.Size = v.input.Size) ∧
    (∀ out op, startIteration thread versions ep2 t objects sc = some out →
        out.op = some op → op.Size = 0) := by
  constructor
  · intro op hop
    unfold prepareVersionStep at hop
    dsimp only at hop
    cases hout : v.outcome with
    | err e =>
      rw [hout] at hop
      simp only [capture] at hop
      exact Or.inl hop
    | ok res =>
      rw [hout] at hop
      dsimp only at hop
      by_cases hsz : res.Size = v.input.Size
      · rw [if_neg (not_not_intro hsz)] at hop
        dsimp only at hop
        rcases List.mem_append.mp hop with hmem | hmem
        · exact Or.inl hmem
        · right
          rw [List.mem_singleton.mp hmem]
      · rw [if_pos hsz] at hop
        simp only [capture] at hop
        exact Or.inl hop
  · intro out op hrun hop
    rcases startIteration_shape thread versions ep2 t objects sc out hrun with
      hexit | ⟨-, -, -, op2, hop2, -, hsz, -, -⟩
    · rw [hexit] at hop
      exact Option.noConfusion hop
    · rw [hop2] at hop
      rw [← Option.some.inj hop]
      exact hsz

/-- Witness for C9 amended at a successful upload and a successful stat. -/
theorem operation_size_fields_witness :
    (∀ op ∈ (prepareVersionStep 0 "ep" "obj-1"
        { input := objFix, outcome := .ok { VersionID := "", Size := 5 }, d := 1 }
        initPrep).1.emitted,
      op ∈ initPrep.emitted ∨ op.Size = objFix.Size) ∧
    (∀ out op, startIteration 0 1 "ep" 0 [objFix] scFix = some out →
        out.op = some op → op.Size = 0) :=
  operation_size_fields 0 "ep" "obj-1"
    { input := objFix, outcome := .ok { VersionID := "", Size := 5 }, d := 1 }
    initPrep 0 1 "ep" 0 [objFix] scFix

/-- Concrete failing version upload used by counterexamples. -/
def vFail : VersionScript :=
  { input := objFix, outcome := .err "connection reset", d := 1 }

/-- Concrete successful version upload used by witnesses. -/
def vOk : VersionScript :=
  { input := objFix, outcome := .ok { VersionID := "v1", Size := 5 }, d := 1 }

/-- Counterexample for C2: on the upload-error branch of Prepare (stat.go
lines 114-123) the worker returns before reaching cldone() at line 135, so
the iteration ends with one client checked out and zero released; the
release count does not match the checkout count, refuting the claim that
the release function runs on every exit path. -/
theorem prepare_error_leaks_client_cex :
    (prepareVersionStep 0 "ep" "obj-1" vFail initPrep).1.checkouts = 1 ∧
    (prepareVersionStep 0 "ep" "obj-1" vFail initPrep).1.releases = 0 ∧
    (prepareVersionStep 0 "ep" "obj-1" vFail initPrep).1.releases ≠
      (prepareVersionStep 0 "ep" "obj-1" vFail initPrep).1.checkouts := by
  refine ⟨rfl, rfl, by decide⟩

/-- Checkout and release counters across one Prepare version upload: the
checkout always happens; the release happens exactly on the continuing
(success) path. -/
lemma prepareVersionStep_counters (i : Nat) (ep name : String)
    (v : VersionScript) (s : PrepState) :
    (prepareVersionStep i ep name v s).1.checkouts = s.checkouts + 1 ∧
    ((prepareVersionStep i ep name v s).2 = true →
      (prepareVersionStep i ep name v s).1.releases = s.releases + 1) ∧
    ((prepareVersionStep i ep name v s).2 = false →
      (prepareVersionStep i ep name v s).1.releases = s.releases) := by
  unfold prepareVersionStep
  dsimp only
  cases hout : v.outcome with
  | err e =>
    dsimp only
    simp [capture]
  | ok res =>
    dsimp only
    by_cases hsz : res.Size = v.input.Size
    · rw [if_neg (not_not_intro hsz)]
      simp
    · rw [if_pos hsz]
      simp [capture]

/-- C2 amended: in Start every exit path of an iteration releases exactly
the handles it checked out (both the error and the success path of the
measurement loop, and trivially the pre-checkout exits); in Prepare the
handle is released on the success path of a version upload, but on the
upload-error and size-mismatch branches the worker returns without invoking
the release function, leaking that checkout. -/
theorem client_release_paths
    (i : Nat) (ep name : String) (v : VersionScript) (s : PrepState)
    (thread versions : Nat) (ep2 : String) (t : Nat) (objects : List Obj)
    (sc : StartIterScript) :
    (∀ out, startIteration thread versions ep2 t objects sc = some out →
      out.releases = out.checkouts) ∧
    ((prepareVersionStep i ep name v s).2 = true →
      (prepareVersionStep i ep name v s).1.checkouts = s.checkouts + 1 ∧
      (prepareVersionStep i ep name v s).1.releases = s.releases + 1) ∧
    ((prepareVersionStep i ep name v s).2 = false →
      (prepareVersionStep i ep name v s).1.checkouts = s.checkouts + 1 ∧
      (prepareVersionStep i ep name v s).1.releases = s.releases) := by
  refine ⟨?_,
    fun hflag => ⟨(prepareVersionStep_counters i ep name v s).1,
      (prepareVersionStep_counters i ep name v s).2.1 hflag⟩,
    fun hflag => ⟨(prepareVersionStep_counters i ep name v s).1,
      (prepareVersionStep_counters i ep name v s).2.2 hflag⟩⟩
  intro out hrun
  rcases startIteration_shape thread versions ep2 t objects sc out hrun with
    hexit | ⟨-, hco, hrel, -⟩
  · rw [hexit]
    rfl
  · rw [hco, hrel]

/-- Witness for C2 amended: a successful Start iteration and, on the
Prepare side, one successful and one failing version upload. -/
theorem client_release_paths_witness :
    ((∀ out, startIteration 0 1 "ep" 0 [objFix] scFix = some out →
      out.releases = out.checkouts) ∧
    ((prepareVersionStep 0 "ep" "obj-1" vOk initPrep).2 = true →
      (prepareVersionStep 0 "ep" "obj-1" vOk initPrep).1.checkouts =
        initPrep.checkouts + 1 ∧
      (prepareVersionStep 0 "ep" "obj-1" vOk initPrep).1.releases =
        initPrep.releases + 1) ∧
    ((prepareVersionStep 0 "ep" "obj-1" vOk initPrep).2 = false →
      (prepareVersionStep 0 "ep" "obj-1" vOk initPrep).1.checkouts =
        initPrep.checkouts + 1 ∧
      (prepareVersionStep 0 "ep" "obj-1" vOk initPrep).1.releases =
        initPrep.releases)) ∧
    ((prepareVersionStep 0 "ep" "obj-1" vFail initPrep).2 = false →
      (prepareVersionStep 0 "ep" "obj-1" vFail initPrep).1.checkouts =
        initPrep.checkouts + 1 ∧
      (prepareVersionStep 0 "ep" "obj-1" vFail initPrep).1.releases =
        initPrep.releases) :=
  ⟨client_release_paths 0 "ep" "obj-1" vOk initPrep 0 1 "ep" 0 [objFix] scFix,
   (client_release_paths 0 "ep" "obj-1" vFail initPrep 0 1 "ep" 0 [objFix] scFix).2.2⟩

/-- Script predicate: this version upload fails (explicit error or reported
size differing from the requested size). -/
def versionFails (v : VersionScript) : Bool :=
  match v.outcome with
  | .err _ => true
  | .ok res => decide (res.Size ≠ v.input.Size)

/-- Script predicate: this slot passes the cancellation poll and the rate
limiter but contains a failing version upload. -/
def slotFails (slot : SlotScript) : Bool :=
  !slot.cancelled && !slot.rps && slot.versions.any versionFails

/-- The continue flag of one version upload is the negation of its failure
predicate. -/
lemma prepareVersionStep_flag (i : Nat) (ep name : String)
    (v : VersionScript) (s : PrepState) :
    (prepareVersionStep i ep name v s).2 = !versionFails v := by
  unfold prepareVersionStep versionFails
  dsimp only
  cases hout : v.outcome with
  | err e => rfl
  | ok res =>
    dsimp only
    by_cases hsz : res.Size = v.input.Size
    · rw [if_neg (not_not_intro hsz)]
      simp [hsz]
    · rw [if_pos hsz]
      simp [hsz]

/-- A version upload that stops the worker leaves a captured error in the
groupErr slot. -/
lemma prepareVersionStep_fail_groupErr (i : Nat) (ep name : String)
    (v : VersionScript) (s : PrepState)
    (h : (prepareVersionStep i ep name v s).2 = false) :
    (prepareVersionStep i ep name v s).1.groupErr.isSome = true := by
  have hvf : versionFails v = true := by
    have hf := prepareVersionStep_flag i ep name v s
    rw [h] at hf
    simpa using hf.symm
  unfold prepareVersionStep
  dsimp only
  cases hout : v.outcome with
  | err e =>
    dsimp only
    cases hge : s.groupErr <;> simp [capture, hge]
  | ok res =>
    dsimp only
    have hsz : res.Size ≠ v.input.Size := by
      unfold versionFails at hvf
      rw [hout] at hvf
      simpa using hvf
    rw [if_pos hsz]
    cases hge : s.groupErr <;> simp [capture, hge]

/-- A version loop containing a failing upload stops the worker with a
captured error. -/
lemma runVersions_fails (i : Nat) (ep name : String) :
    ∀ (vs : List VersionScript) (s : PrepState),
      vs.any versionFails = true →
      (runVersions i ep name vs s).2 = false ∧
      (runVersions i ep name vs s).1.groupErr.isSome = true := by
  intro vs
  induction vs with
  | nil => intro s h; simp at h
  | cons v rest ih =>
    intro s h
    unfold runVersions
    cases hstep : prepareVersionStep i ep name v s with
    | mk s1 flag =>
      cases flag with
      | true =>
        have hvf : versionFails v = false := by
          have := prepareVersionStep_flag i ep name v s
          rw [hstep] at this
          simpa using this.symm
        have hrest : rest.any versionFails = true := by
          rw [List.any_cons, hvf] at h
          simpa using h
        exact ih s1 hrest
      | false =>
        refine ⟨rfl, ?_⟩
        have := prepareVersionStep_fail_groupErr i ep name v s (by rw [hstep])
        rw [hstep] at this
        exact this

/-- C7 as amended: a Prepare worker whose current slot contains a transfer
failure (upload error or size mismatch) captures the error into groupErr
and exits its iteration loop at once, abandoning all remaining assigned
slots; sibling workers run their own loops and are unaffected. -/
theorem prepare_worker_stops_on_failure (i : Nat) (ep : String)
    (slot : SlotScript) (rest : List SlotScript) (s : PrepState)
    (h : slotFails slot = true) :
    runSlots i ep (slot :: rest) s = (runSlot i ep slot s).1 ∧
    (runSlot i ep slot s).2 = false ∧
    (runSlot i ep slot s).1.groupErr.isSome = true := by
  have hparts := h
  unfold slotFails at hparts
  rw [Bool.and_eq_true, Bool.and_eq_true] at hparts
  obtain ⟨⟨hcan, hrps⟩, hany⟩ := hparts
  rw [Bool.not_eq_true'] at hcan hrps
  have hslot : runSlot i ep slot s = runVersions i ep slot.name slot.versions s := by
    unfold runSlot
    rw [hcan, hrps]
    simp
  have hrv := runVersions_fails i ep slot.name slot.versions s hany
  refine ⟨?_, by rw [hslot]; exact hrv.1, by rw [hslot]; exact hrv.2⟩
  unfold runSlots
  cases hres : runSlot i ep slot s with
  | mk s1 flag =>
    have hflag : flag = false := by
      have h2 : (s1, flag).2 = false := by
        rw [← hres, hslot]
        exact hrv.1
      simpa using h2
    subst hflag
    rfl

/-- Concrete failing slot: its only version upload errors out. -/
def slotFailFix : SlotScript :=
  { cancelled := false, rps := false, name := "obj-1", versions := [vFail] }

/-- Concrete succeeding slot. -/
def slotOkFix : SlotScript :=
  { cancelled := false, rps := false, name := "obj-2", versions := [vOk] }

/-- Counterexample for C7 as stated: a worker assigned two slots whose
first upload errors performs exactly one PutObject call and never attempts
its second assigned slot, because the error branch of stat.go line 122
returns from the whole worker; the claim that the worker does not abandon
its remaining assigned iterations would require at least two attempts. -/
theorem prepare_worker_abandons_rest_cex :
    (runSlots 0 "ep" [slotFailFix, slotOkFix] initPrep).groupErr.isSome = true ∧
    (runSlots 0 "ep" [slotFailFix, slotOkFix] initPrep).putAttempts = 1 ∧
    ¬ 2 ≤ (runSlots 0 "ep" [slotFailFix, slotOkFix] initPrep).putAttempts := by
  decide

/-- Witness for C7 as amended at the concrete failing slot. -/
theorem prepare_worker_stops_on_failure_witness :
    runSlots 0 "ep" (slotFailFix :: [slotOkFix]) initPrep =
      (runSlot 0 "ep" slotFailFix initPrep).1 ∧
    (runSlot 0 "ep" slotFailFix initPrep).2 = false ∧
    (runSlot 0 "ep" slotFailFix initPrep).1.groupErr.isSome = true :=
  prepare_worker_stops_on_failure 0 "ep" slotFailFix [slotOkFix] initPrep
    (by decide)

/-- The capture step preserves the invariant that the first-error slot
holds exactly the first logged error. -/
lemma capture_headInv (s : PrepState) (msg : String)
    (h : s.groupErr = s.logged.head?) :
    (capture s msg).groupErr = (capture s msg).logged.head? := by
  unfold capture
  dsimp only
  cases hl : s.logged with
  | nil =>
    rw [hl] at h
    simp only [List.head?_nil] at h
    simp [h, hl]
  | cons a tl =>
    rw [hl] at h
    simp only [List.head?_cons] at h
    simp [h, hl]

/-- One Prepare version upload preserves the first-error invariant. -/
lemma prepareVersionStep_headInv (i : Nat) (ep name : String)
    (v : VersionScript) (s : PrepState)
    (h : s.groupErr = s.logged.head?) :
    (prepareVersionStep i ep name v s).1.groupErr =
      (prepareVersionStep i ep name v s).1.logged.head? := by
  unfold prepareVersionStep
  dsimp only
  cases hout : v.outcome with
  | err e =>
    dsimp only
    exact capture_headInv _ _ h
  | ok res =>
    dsimp only
    by_cases hsz : res.Size = v.input.Size
    · rw [if_neg (not_not_intro hsz)]
      exact h
    · rw [if_pos hsz]
      exact capture_headInv _ _ h

/-- The version loop preserves the first-error invariant. -/
lemma runVersions_headInv (i : Nat) (ep name : String) :
    ∀ (vs : List VersionScript) (s : PrepState),
      s.groupErr = s.logged.head? →
      (runVersions i ep name vs s).1.groupErr =
        (runVersions i ep name vs s).1.logged.head? := by
  intro vs
  induction vs with
  | nil => intro s h; exact h
  | cons v rest ih =>
    intro s h
    unfold runVersions
    have hstep := prepareVersionStep_headInv i ep name v s h
    cases hres : prepareVersionStep i ep name v s with
    | mk s1 flag =>
      rw [hres] at hstep
      cases flag with
      | true => exact ih s1 hstep
      | false => exact hstep

/-- One assigned slot preserves the first-error invariant. -/
lemma runSlot_headInv (i : Nat) (ep : String) (slot : SlotScript)
    (s : PrepState) (h : s.groupErr = s.logged.head?) :
    (runSlot i ep slot s).1.groupErr =
      (runSlot i ep slot s).1.logged.head? := by
  unfold runSlot
  split
  · exact h
  split
  · exact h
  exact runVersions_headInv i ep slot.name slot.versions s h

/-- A whole worker preserves the first-error invariant. -/
lemma runSlots_headInv (i : Nat) (ep : String) :
    ∀ (slots : List SlotScript) (s : PrepState),
      s.groupErr = s.logged.head? →
      (runSlots i ep slots s).groupErr =
        (runSlots i ep slots s).logged.head? := by
  intro slots
  induction slots with
  | nil => intro s h; exact h
  | cons slot rest ih =>
    intro s h
    unfold runSlots
    have hstep := runSlot_headInv i ep slot s h
    cases hres : runSlot i ep slot s with
    | mk s1 flag =>
      rw [hres] at hstep
      cases flag with
      | true => exact ih s1 hstep
      | false => exact hstep

/-- C1: after all Prepare workers have finished, the groupErr slot that
Prepare returns holds exactly the first error passed to g.Error in
mutex-acquisition order (none when no error occurred); moreover a capture
performed after some error is already held leaves the slot untouched and
only logs the new error, so later errors never overwrite the first and are
never returned. -/
theorem prepare_first_error_capture (ep : String)
    (scripts : List (List SlotScript)) (s : PrepState) (m : String)
    (hs : s.groupErr.isSome = true) :
    ((prepareRun ep scripts).groupErr =
      (prepareRun ep scripts).logged.head?) ∧
    (capture s m).groupErr = s.groupErr ∧
    (capture s m).logged = s.logged ++ [m] := by
  refine ⟨?_, ?_, rfl⟩
  · unfold prepareRun
    have aux : ∀ (l : List (Nat × List SlotScript)) (s0 : PrepState),
        s0.groupErr = s0.logged.head? →
        (l.foldl (fun acc iw => runSlots iw.1 ep iw.2 acc) s0).groupErr =
          (l.foldl (fun acc iw => runSlots iw.1 ep iw.2 acc) s0).logged.head? := by
      intro l
      induction l with
      | nil => intro s0 h; exact h
      | cons p tl ih =>
        intro s0 h
        exact ih _ (runSlots_headInv p.1 ep p.2 s0 h)
    exact aux scripts.enum initPrep rfl
  · unfold capture
    dsimp only
    cases hge : s.groupErr with
    | none => rw [hge] at hs; exact Bool.noConfusion hs
    | some m0 => rfl

/-- Concrete state that has already captured an error. -/
def sCaptured : PrepState :=
  { initPrep with
    groupErr := some "upload error: boom",
    logged := ["upload error: boom"] }

/-- Witness for C1 on a run with a failing worker and a late extra error. -/
theorem prepare_first_error_capture_witness :
    ((prepareRun "ep" [[slotFailFix], [slotOkFix]]).groupErr =
      (prepareRun "ep" [[slotFailFix], [slotOkFix]]).logged.head?) ∧
    (capture sCaptured "late error").groupErr = sCaptured.groupErr ∧
    (capture sCaptured "late error").logged = sCaptured.logged ++ ["late error"] :=
  prepare_first_error_capture "ep" [[slotFailFix], [slotOkFix]]
    sCaptured "late error" (by decide)

/-- Script predicate: a slot that proceeds (no cancellation, no rate-limit
stop) and whose V version uploads all succeed with the correct size. -/
def slotOk (V : Nat) (slot : SlotScript) : Bool :=
  !slot.cancelled && !slot.rps && (slot.versions.length == V) &&
    slot.versions.all fun v => !versionFails v

/-- A succeeding version upload continues the worker and appends exactly one
entry to the shared inventory. -/
lemma prepareVersionStep_ok_objects (i : Nat) (ep name : String)
    (v : VersionScript) (s : PrepState) (h : versionFails v = false) :
    (prepareVersionStep i ep name v s).2 = true ∧
    (prepareVersionStep i ep name v s).1.objects.length =
      s.objects.length + 1 := by
  constructor
  · rw [prepareVersionStep_flag, h]
    rfl
  · unfold prepareVersionStep
    dsimp only
    unfold versionFails at h
    cases hout : v.outcome with
    | err e =>
      rw [hout] at h
      exact absurd h (by simp)
    | ok res =>
      dsimp only
      rw [hout] at h
      simp only [decide_eq_false_iff_not, not_not] at h
      rw [if_neg (not_not_intro h)]
      simp

/-- A version loop of all-succeeding uploads appends one inventory entry
per version and keeps the worker going. -/
lemma runVersions_ok (i : Nat) (ep name : String) :
    ∀ (vs : List VersionScript) (s : PrepState),
      (vs.all fun v => !versionFails v) = true →
      (runVersions i ep name vs s).2 = true ∧
      (runVersions i ep name vs s).1.objects.length =
        s.objects.length + vs.length := by
  intro vs
  induction vs with
  | nil =>
    intro s h
    exact ⟨rfl, by simp [runVersions]⟩
  | cons v rest ih =>
    intro s h
    rw [List.all_cons, Bool.and_eq_true] at h
    have hv : versionFails v = false := by simpa using h.1
    unfold runVersions
    have hstep := prepareVersionStep_ok_objects i ep name v s hv
    cases hres : prepareVersionStep i ep name v s with
    | mk s1 flag =>
      rw [hres] at hstep
      have hflag : flag = true := hstep.1
      subst hflag
      dsimp only
      have hrest := ih s1 h.2
      refine ⟨hrest.1, ?_⟩
      rw [hrest.2]
      have hlen : s1.objects.length = s.objects.length + 1 := hstep.2
      rw [hlen]
      simp [List.length_cons]
      omega

/-- A slot of all-succeeding uploads appends V entries and keeps going. -/
lemma runSlot_ok (i : Nat) (ep : String) (V : Nat) (slot : SlotScript)
    (s : PrepState) (h : slotOk V slot = true) :
    (runSlot i ep slot s).2 = true ∧
    (runSlot i ep slot s).1.objects.length = s.objects.length + V := by
  unfold slotOk at h
  rw [Bool.and_eq_true, Bool.and_eq_true, Bool.and_eq_true] at h
  obtain ⟨⟨⟨hcan, hrps⟩, hlen⟩, hall⟩ := h
  rw [Bool.not_eq_true'] at hcan hrps
  have hV : slot.versions.length = V := by simpa using hlen
  unfold runSlot
  rw [hcan, hrps]
  simp only [Bool.false_eq_true, if_false]
  have := runVersions_ok i ep slot.name slot.versions s hall
  rw [hV] at this
  exact this

/-- A worker whose slots all succeed appends slots.length times V entries. -/
lemma runSlots_ok (i : Nat) (ep : String) (V : Nat) :
    ∀ (slots : List SlotScript) (s : PrepState),
      slots.all (slotOk V) = true →
      (runSlots i ep slots s).objects.length =
        s.objects.length + slots.length * V := by
  intro slots
  induction slots with
  | nil => intro s h; simp [runSlots]
  | cons slot rest ih =>
    intro s h
    rw [List.all_cons, Bool.and_eq_true] at h
    unfold runSlots
    have hslot := runSlot_ok i ep V slot s h.1
    cases hres : runSlot i ep slot s with
    | mk s1 flag =>
      rw [hres] at hslot
      have hflag : flag = true := hslot.1
      subst hflag
      dsimp only
      rw [ih s1 h.2, hslot.2, List.length_cons]
      ring

/-- The whole worker pool appends the total assigned iterations times V. -/
lemma prepareRun_ok (ep : String) (V : Nat)
    (scripts : List (List SlotScript))
    (h : (scripts.all fun w => w.all (slotOk V)) = true) :
    (prepareRun ep scripts).objects.length =
      (scripts.map List.length).sum * V := by
  unfold prepareRun
  have aux : ∀ (l : List (Nat × List SlotScript)) (s0 : PrepState),
      (∀ p ∈ l, p.2.all (slotOk V) = true) →
      (l.foldl (fun acc iw => runSlots iw.1 ep iw.2 acc) s0).objects.length =
        s0.objects.length + (l.map fun p => p.2.length).sum * V := by
    intro l
    induction l with
    | nil => intro s0 _; simp
    | cons p tl ih =>
      intro s0 hl
      simp only [List.foldl_cons, List.map_cons, List.sum_cons]
      rw [ih _ fun q hq => hl q (List.mem_cons_of_mem p hq)]
      rw [runSlots_ok p.1 ep V p.2 s0 (hl p (List.mem_cons_self p tl))]
      ring
  rw [aux scripts.enum initPrep ?hmem]
  · have hmap : (scripts.enum.map fun p => p.2.length) =
        scripts.map List.length := by
      have : (fun p : Nat × List SlotScript => p.2.length) =
          List.length ∘ Prod.snd := rfl
      rw [this, ← List.map_map, List.enum_map_snd]
    rw [hmap]
    simp [initPrep]
  · intro p hp
    rw [List.all_eq_true] at h
    exact h p.2 (by
      have := List.mem_map_of_mem Prod.snd hp
      rwa [List.enum_map_snd] at this)

/-- C5: when Prepare runs with K > 0 workers whose assigned slot counts
follow splitObjs for C objects, with no cancellation, no rate-limiter stop,
and every one of the V uploads per slot succeeding with the correct size,
the shared inventory afterwards holds exactly C times V entries. -/
theorem prepare_inventory_count (C K V : Nat) (ep : String)
    (scripts : List (List SlotScript)) (hK : 0 < K)
    (hsplit : scripts.map List.length = splitObjs C K)
    (hok : (scripts.all fun w => w.all (slotOk V)) = true) :
    (prepareRun ep scripts).objects.length = C * V := by
  rw [prepareRun_ok ep V scripts hok, hsplit, splitObjs_sum C K hK]

/-- Witness for C5 at C = 2, K = 2, V = 1. -/
theorem prepare_inventory_count_witness :
    (prepareRun "ep" [[slotOkFix], [slotOkFix]]).objects.length = 2 * 1 :=
  prepare_inventory_count 2 2 1 "ep" [[slotOkFix], [slotOkFix]]
    (by decide) (by decide) (by decide)

/-- Records emitted by one version upload beyond those already emitted have
their call bounded by the two clock reads. -/
lemma prepareVersionStep_emitted (i : Nat) (ep name : String)
    (v : VersionScript) (s : PrepState) :
    ∀ op ∈ (prepareVersionStep i ep name v s).1.emitted,
      op ∈ s.emitted ∨ op.Start ≤ op.End := by
  intro op hop
  unfold prepareVersionStep at hop
  dsimp only at hop
  cases hout : v.outcome with
  | err e =>
    rw [hout] at hop
    simp only [capture] at hop
    exact Or.inl hop
  | ok res =>
    rw [hout] at hop
    dsimp only at hop
    by_cases hsz : res.Size = v.input.Size
    · rw [if_neg (not_not_intro hsz)] at hop
      dsimp only at hop
      rcases List.mem_append.mp hop with hmem | hmem
      · exact Or.inl hmem
      · right
        rw [List.mem_singleton.mp hmem]
        exact Nat.le_add_right _ _
    · rw [if_pos hsz] at hop
      simp only [capture] at hop
      exact Or.inl hop

/-- Version loops only add timestamp-ordered records. -/
lemma runVersions_emitted (i : Nat) (ep name : String) :
    ∀ (vs : List VersionScript) (s : PrepState),
      ∀ op ∈ (runVersions i ep name vs s).1.emitted,
        op ∈ s.emitted ∨ op.Start ≤ op.End := by
  intro vs
  induction vs with
  | nil => intro s op hop; exact Or.inl hop
  | cons v rest ih =>
    intro s op hop
    unfold runVersions at hop
    cases hres : prepareVersionStep i ep name v s with
    | mk s1 flag =>
      rw [hres] at hop
      have hstep := prepareVersionStep_emitted i ep name v s
      rw [hres] at hstep
      cases flag with
      | true =>
        dsimp only at hop
        rcases ih s1 op hop with hmem | hle
        · exact hstep op hmem
        · exact Or.inr hle
      | false => exact hstep op hop

/-- Slots only add timestamp-ordered records. -/
lemma runSlot_emitted (i : Nat) (ep : String) (slot : SlotScript)
    (s : PrepState) :
    ∀ op ∈ (runSlot i ep slot s).1.emitted,
      op ∈ s.emitted ∨ op.Start ≤ op.End := by
  intro op hop
  unfold runSlot at hop
  split at hop
  · exact Or.inl hop
  split at hop
  · exact Or.inl hop
  exact runVersions_emitted i ep slot.name slot.versions s op hop

/-- Workers only add timestamp-ordered records. -/
lemma runSlots_emitted (i : Nat) (ep : String) :
    ∀ (slots : List SlotScript) (s : PrepState),
      ∀ op ∈ (runSlots i ep slots s).emitted,
        op ∈ s.emitted ∨ op.Start ≤ op.End := by
  intro slots
  induction slots with
  | nil => intro s op hop; exact Or.inl hop
  | cons slot rest ih =>
    intro s op hop
    unfold runSlots at hop
    cases hres : runSlot i ep slot s with
    | mk s1 flag =>
      rw [hres] at hop
      have hstep := runSlot_emitted i ep slot s
      rw [hres] at hstep
      cases flag with
      | true =>
        dsimp only at hop
        rcases ih s1 op hop with hmem | hle
        · exact hstep op hmem
        · exact Or.inr hle
      | false => exact hstep op hop

/-- Concrete PUT record produced by running slotOkFix from the initial
state. -/
def putOpFix : Operation :=
  { OpType := "PUT", Thread := 0, Size := 5, File := "obj-2", ObjPerOp := 1
    Endpoint := "ep", Start := 0, End := 1, Err := "" }

/-- Concrete STAT record produced by scFix on the one-entry inventory. -/
def statOpFix : Operation :=
  { OpType := "STAT", Thread := 0, Size := 0, File := "obj-1", ObjPerOp := 1
    Endpoint := "ep", Start := 0, End := 1, Err := "" }

/-- C8: every Operation record emitted in either phase satisfies
End greater or equal Start: the Start timestamp is taken just before the
network call and the End timestamp after it, on the PUT success path of
Prepare and on both the error and the success path of Start. -/
theorem operation_end_ge_start (ep : String)
    (scripts : List (List SlotScript)) (thread versions : Nat)
    (ep2 : String) (t : Nat) (objects : List Obj) (sc : StartIterScript) :
    (∀ op ∈ (prepareRun ep scripts).emitted, op.Start ≤ op.End) ∧
    (∀ out op, startIteration thread versions ep2 t objects sc = some out →
      out.op = some op → op.Start ≤ op.End) := by
  constructor
  · unfold prepareRun
    have aux : ∀ (l : List (Nat × List SlotScript)) (s0 : PrepState),
        (∀ op ∈ s0.emitted, op.Start ≤ op.End) →
        ∀ op ∈ (l.foldl (fun acc iw => runSlots iw.1 ep iw.2 acc) s0).emitted,
          op.Start ≤ op.End := by
      intro l
      induction l with
      | nil => intro s0 h; exact h
      | cons p tl ih =>
        intro s0 h
        refine ih _ ?_
        intro op hop
        rcases runSlots_emitted p.1 ep p.2 s0 op hop with hmem | hle
        · exact h op hmem
        · exact hle
    exact aux scripts.enum initPrep (by intro op hop; simp [initPrep] at hop)
  · intro out op hrun hop
    rcases startIteration_shape thread versions ep2 t objects sc out hrun with
      hexit | ⟨-, -, -, op2, hop2, -, -, hst, hen⟩
    · rw [hexit] at hop
      exact Option.noConfusion hop
    · rw [hop2] at hop
      rw [← Option.some.inj hop, hst, hen]
      exact Nat.le_add_right _ _

/-- Witness for C8 on the concrete PUT and STAT records. -/
theorem operation_end_ge_start_witness :
    putOpFix.Start ≤ putOpFix.End ∧ statOpFix.Start ≤ statOpFix.End :=
  ⟨(operation_end_ge_start "ep" [[slotOkFix]] 0 1 "ep" 0 [objFix] scFix).1
      putOpFix (by decide),
   (operation_end_ge_start "ep" [[slotOkFix]] 0 1 "ep" 0 [objFix] scFix).2
      { op := some statOpFix, more := true, checkouts := 1, releases := 1 }
      statOpFix rfl rfl⟩

/-- Witness for C10 on a one-entry inventory. -/
theorem start_selection_inbounds_iff_witness :
    ((selectObject [objFix] 0).isSome = true ↔ [objFix] ≠ []) ∧
    (startIteration 0 1 "ep" 0 [objFix] scFix = none ↔
      [objFix] = ([] : List Obj)) :=
  start_selection_inbounds_iff [objFix] 0 0 1 "ep" 0 scFix rfl rfl
